import Mathlib

set_option maxRecDepth 100000

set_option maxHeartbeats 1000000

/-!
Verification of the study-assistant guardrail core (src/main.py).

Strings are modeled as `List Char`.  The Python regular expressions used by
`sanitize_input` are embedded as structural scanners:

* `re.sub(r'<[^>]+>', '', text)` — Python's scan finds, at each `<`, the next
  `>`; if at least one non-`>` character lies between them the whole span is
  removed and the scan resumes after the `>`.  `rtGo` implements exactly this
  with an explicit buffer for the characters seen since the pending `<`.
* `re.sub(r'\s+', ' ', text)` — every maximal whitespace run becomes a single
  space (`nwGo`, with a flag recording whether we are inside a run).
* `.strip()` — leading and trailing whitespace removed (`stripWS`).

Whitespace (`\s`) and `str.lower` are modeled on their ASCII fragment, which
covers every constant appearing in the program.
-/

/-- ASCII fragment of Python's whitespace class `\s`. -/
def pyWS (c : Char) : Bool :=
  c == ' ' || c == '\t' || c == '\n' || c == '\r' || c == '\x0b' || c == '\x0c'

/-- The apostrophe character, kept out of string literals. -/
def apos : Char := Char.ofNat 39

/-- Scanner for `re.sub(r'<[^>]+>', '', text)`.  State `none`: outside a
candidate tag; state `some buf`: a `<` has been seen and `buf` holds the
characters read since (none of which is `>`). -/
def rtGo : Option (List Char) → List Char → List Char
  | none, [] => []
  | some buf, [] => '<' :: buf
  | none, c :: t => if c = '<' then rtGo (some []) t else c :: rtGo none t
  | some buf, c :: t =>
      if c = '>' then
        if buf.isEmpty then '<' :: '>' :: rtGo none t
        else rtGo none t
      else rtGo (some (buf ++ [c])) t

/-- Scanner for `re.sub(r'\s+', ' ', text)`; the flag records whether the
previous character was whitespace (run already emitted). -/
def nwGo : Bool → List Char → List Char
  | _, [] => []
  | true, c :: t => if pyWS c then nwGo true t else c :: nwGo false t
  | false, c :: t => if pyWS c then ' ' :: nwGo true t else c :: nwGo false t

/-- Remove a maximal all-whitespace suffix. -/
def dropTrailWS : List Char → List Char
  | [] => []
  | c :: t =>
      match dropTrailWS t with
      | [] => if pyWS c then [] else [c]
      | d :: r => c :: d :: r

/-- Model of `str.strip()`: drop leading and trailing whitespace. -/
def stripWS (l : List Char) : List Char := dropTrailWS (l.dropWhile pyWS)

/-- Function `sanitize_input` from src/main.py: remove tag-like spans, collapse
whitespace runs to single spaces, trim. -/
def sanitize_input (text : List Char) : List Char :=
  stripWS (nwGo false (rtGo none text))

/-- ASCII fragment of `str.lower`. -/
def lowerStr (l : List Char) : List Char := l.map Char.toLower

/-- Does `hay` start with `sub`?  (Helper for Python's `in` on strings.) -/
def leadsWith : List Char → List Char → Bool
  | [], _ => true
  | _ :: _, [] => false
  | a :: s, b :: t => a == b && leadsWith s t

/-- Python's `sub in hay` on strings: some position of `hay` starts with `sub`. -/
def containsSub : List Char → List Char → Bool
  | hay, sub =>
      leadsWith sub hay ||
        match hay with
        | [] => false
        | _ :: t => containsSub t sub

/-- Constant `ALLOWED_SUBJECTS` from src/main.py. -/
def ALLOWED_SUBJECTS : List (List Char) :=
  ["math".toList, "science".toList, "history".toList, "literature".toList,
   "biology".toList, "calculus".toList, "physics".toList, "chemistry".toList]

/-- Constant `MAX_INPUT_LENGTH` from src/main.py. -/
def MAX_INPUT_LENGTH : Nat := 1000

/-- Function `is_study_related` from src/main.py: the lowercased query contains an
allowed subject, or the substring study, or the substring exam. -/
def is_study_related (query : List Char) : Bool :=
  let query_lower := lowerStr query
  ALLOWED_SUBJECTS.any (fun subject => containsSub query_lower subject) ||
    containsSub query_lower ("study".toList) || containsSub query_lower ("exam".toList)

/-- Message sent on empty input. -/
def EMPTY_INPUT_MSG : List Char :=
  "Please provide a study-related question or request.".toList

/-- Message sent on over-long input (f-string with MAX_INPUT_LENGTH = 1000). -/
def TOO_LONG_MSG : List Char :=
  "Input is too long (max 1000 characters). Please shorten your request.".toList

/-- Redirect message sent when the query is not study-related. -/
def REDIRECT_MSG : List Char :=
  "Sorry, I can only assist with study-related topics like math, science, history, or literature. Please try something like ".toList
    ++ [apos] ++ "explain calculus".toList ++ [apos] ++ " or ".toList ++ [apos]
    ++ "create biology questions".toList ++ [apos]
    ++ ". How can I help you study?".toList

/-- Message sent when the model output is empty or mentions error. -/
def FAIL_MSG : List Char :=
  "Sorry, I couldn".toList ++ [apos]
    ++ "t process that request. Please try a different study-related question.".toList

/-- Message sent by the catch-all exception handler. -/
def UNEXPECTED_MSG : List Char :=
  "An unexpected error occurred. Please try again or contact support if the issue persists.".toList

/-- Message sent by the ValueError handler (embeds the exception text). -/
def invalidInputMsg (m : List Char) : List Char :=
  "Invalid input: ".toList ++ m ++ ". Please provide a valid study-related request.".toList

/-- Message sent by the RuntimeError handler (embeds the exception text). -/
def processingErrorMsg (m : List Char) : List Char :=
  "Processing error: ".toList ++ m ++ ". Please try again or rephrase your request.".toList

/-- The word the response filter looks for in the lowercased output. -/
def errWord : List Char := "error".toList

/-- Outcome of `Runner.run` in a turn: a returned `final_output` (possibly
absent), or a raised exception of one of the handled classes. -/
inductive LLMResult where
  | ok (final_output : Option (List Char)) : LLMResult
  | raiseValueError (msg : List Char) : LLMResult
  | raiseRuntimeError (msg : List Char) : LLMResult
  | raiseOtherException : LLMResult
deriving DecidableEq

/-- Which return path of `handle_message` ended the turn. -/
inductive Outcome where
  | emptyReject
  | lengthReject
  | classifyReject
  | outputReject
  | displayed
  | valueErrorCaught
  | runtimeErrorCaught
  | exceptionCaught
deriving DecidableEq

/-- Result of one turn: the messages sent (in order), whether `Runner.run`
was invoked (the Routing state entered), and the return path taken. -/
structure TurnResult where
  sent : List (List Char)
  routed : Bool
  outcome : Outcome
deriving DecidableEq

/-- Function `handle_message` from src/main.py, with the `Runner.run` call abstracted
as the `llm` argument. -/
def handle_message (content : List Char) (llm : LLMResult) : TurnResult :=
  if content = [] ∨ content.length = 0 then
    ⟨[EMPTY_INPUT_MSG], false, .emptyReject⟩
  else if MAX_INPUT_LENGTH < content.length then
    ⟨[TOO_LONG_MSG], false, .lengthReject⟩
  else
    let sanitized_input := sanitize_input content
    if is_study_related sanitized_input = false then
      ⟨[REDIRECT_MSG], false, .classifyReject⟩
    else
      match llm with
      | .ok none => ⟨[FAIL_MSG], true, .outputReject⟩
      | .ok (some out) =>
          if out = [] ∨ containsSub (lowerStr out) errWord = true then
            ⟨[FAIL_MSG], true, .outputReject⟩
          else
            ⟨[out], true, .displayed⟩
      | .raiseValueError m => ⟨[invalidInputMsg m], true, .valueErrorCaught⟩
      | .raiseRuntimeError m => ⟨[processingErrorMsg m], true, .runtimeErrorCaught⟩
      | .raiseOtherException => ⟨[UNEXPECTED_MSG], true, .exceptionCaught⟩

theorem handle_empty (llm : LLMResult) :
    handle_message [] llm = ⟨[EMPTY_INPUT_MSG], false, .emptyReject⟩ := by
  simp [handle_message]

theorem not_empty_cond {content : List Char} (h1 : content ≠ []) :
    ¬(content = [] ∨ content.length = 0) := by
  rcases content with _ | ⟨c, t⟩
  · exact absurd rfl h1
  · simp

theorem handle_long {content : List Char} (llm : LLMResult)
    (h1 : content ≠ []) (h2 : MAX_INPUT_LENGTH < content.length) :
    handle_message content llm = ⟨[TOO_LONG_MSG], false, .lengthReject⟩ := by
  simp [handle_message, h1, h2]

theorem handle_classify {content : List Char} (llm : LLMResult)
    (h1 : content ≠ []) (h2 : content.length ≤ MAX_INPUT_LENGTH)
    (h3 : is_study_related (sanitize_input content) = false) :
    handle_message content llm = ⟨[REDIRECT_MSG], false, .classifyReject⟩ := by
  simp [handle_message, h1, Nat.not_lt.mpr h2, h3]

theorem handle_routed {content : List Char} (llm : LLMResult)
    (h1 : content ≠ []) (h2 : content.length ≤ MAX_INPUT_LENGTH)
    (h3 : is_study_related (sanitize_input content) = true) :
    handle_message content llm =
      match llm with
      | .ok none => ⟨[FAIL_MSG], true, .outputReject⟩
      | .ok (some out) =>
          if out = [] ∨ containsSub (lowerStr out) errWord = true then
            ⟨[FAIL_MSG], true, .outputReject⟩
          else
            ⟨[out], true, .displayed⟩
      | .raiseValueError m => ⟨[invalidInputMsg m], true, .valueErrorCaught⟩
      | .raiseRuntimeError m => ⟨[processingErrorMsg m], true, .runtimeErrorCaught⟩
      | .raiseOtherException => ⟨[UNEXPECTED_MSG], true, .exceptionCaught⟩ := by
  simp [handle_message, h1, Nat.not_lt.mpr h2, h3]

theorem leadsWith_iff (sub hay : List Char) :
    leadsWith sub hay = true ↔ ∃ r, hay = sub ++ r := by
  induction sub generalizing hay with
  | nil => simp [leadsWith]
  | cons a s ih =>
    rcases hay with _ | ⟨b, t⟩
    · simp [leadsWith]
    · rw [leadsWith, Bool.and_eq_true, beq_iff_eq, ih]
      constructor
      · rintro ⟨rfl, r, rfl⟩
        exact ⟨r, rfl⟩
      · rintro ⟨r, h⟩
        rw [List.cons_append, List.cons.injEq] at h
        exact ⟨h.1.symm, r, h.2⟩

theorem containsSub_iff (hay sub : List Char) :
    containsSub hay sub = true ↔ ∃ a b, hay = a ++ sub ++ b := by
  induction hay with
  | nil =>
    rw [containsSub, Bool.or_eq_true, leadsWith_iff]
    constructor
    · rintro (⟨r, h⟩ | h)
      · rcases (List.append_eq_nil).mp h.symm with ⟨rfl, rfl⟩
        exact ⟨[], [], rfl⟩
      · simp at h
    · rintro ⟨a, b, h⟩
      rcases (List.append_eq_nil).mp h.symm with ⟨h2, rfl⟩
      rcases (List.append_eq_nil).mp h2 with ⟨rfl, rfl⟩
      exact Or.inl ⟨[], rfl⟩
  | cons c t ih =>
    rw [containsSub, Bool.or_eq_true, leadsWith_iff, ih]
    constructor
    · rintro (⟨r, h⟩ | ⟨a, b, h⟩)
      · exact ⟨[], r, by simpa using h⟩
      · exact ⟨c :: a, b, by simp [h]⟩
    · rintro ⟨a, b, h⟩
      rcases a with _ | ⟨c2, a2⟩
      · exact Or.inl ⟨b, by simpa using h⟩
      · rw [List.cons_append, List.cons_append, List.cons.injEq] at h
        exact Or.inr ⟨a2, b, h.2⟩

/-- Is there a closing angle bracket anywhere in the list? -/
def hasGt : List Char → Bool
  | [] => false
  | c :: t => c == '>' || hasGt t

/-- Does the list start with a closing angle bracket? -/
def startsGt : List Char → Bool
  | [] => false
  | c :: _ => c == '>'

/-- What must hold of the tail after an opening angle bracket so that the tag
scanner finds no match there: the very next character closes it (empty span,
not matched by the pattern), or no closing bracket occurs at all. -/
def tailOk (t : List Char) : Bool := startsGt t || !hasGt t

/-- No substring of the list matches the tag pattern. -/
def goodLt : List Char → Bool
  | [] => true
  | c :: t => (c != '<' || tailOk t) && goodLt t

theorem hasGt_append (a b : List Char) : hasGt (a ++ b) = (hasGt a || hasGt b) := by
  induction a with
  | nil => simp [hasGt]
  | cons c t ih => simp [hasGt, ih, Bool.or_assoc]

theorem noGt_goodLt : ∀ {l : List Char}, hasGt l = false → goodLt l = true := by
  intro l
  induction l with
  | nil => intro _; rfl
  | cons c t ih =>
    intro h
    simp only [hasGt, Bool.or_eq_false_iff] at h
    simp [goodLt, tailOk, h.2, ih h.2]

/-- Valid scanner states: a pending buffer never contains a closing bracket. -/
def stOk : Option (List Char) → Prop
  | none => True
  | some buf => hasGt buf = false

theorem rtGo_goodLt : ∀ (l : List Char) (st : Option (List Char)),
    stOk st → goodLt (rtGo st l) = true := by
  intro l
  induction l with
  | nil =>
    intro st hst
    rcases st with _ | buf
    · rfl
    · have hb : hasGt buf = false := hst
      rw [rtGo, goodLt, Bool.and_eq_true]
      exact ⟨by simp [tailOk, hb], noGt_goodLt hb⟩
  | cons c t ih =>
    intro st hst
    rcases st with _ | buf
    · rw [rtGo]
      by_cases hc : c = '<'
      · rw [if_pos hc]
        exact ih (some []) (by simp [stOk, hasGt])
      · rw [if_neg hc, goodLt, Bool.and_eq_true, Bool.or_eq_true, bne_iff_ne]
        exact ⟨Or.inl hc, ih none trivial⟩
    · rw [rtGo]
      by_cases hc : c = '>'
      · rw [if_pos hc]
        by_cases hb : buf.isEmpty
        · rw [if_pos hb]
          rw [goodLt, Bool.and_eq_true, goodLt, Bool.and_eq_true]
          refine ⟨by simp [tailOk, startsGt], by simp, ih none trivial⟩
        · rw [if_neg hb]
          exact ih none trivial
      · rw [if_neg hc]
        have hb : hasGt buf = false := hst
        refine ih (some (buf ++ [c])) ?_
        show hasGt (buf ++ [c]) = false
        simp [hasGt_append, hb, hasGt, hc]

theorem rtGo_noGt : ∀ (l buf : List Char), hasGt l = false →
    rtGo (some buf) l = '<' :: (buf ++ l) := by
  intro l
  induction l with
  | nil => intro buf _; simp [rtGo]
  | cons c t ih =>
    intro buf h
    simp only [hasGt, Bool.or_eq_false_iff, beq_eq_false_iff_ne, ne_eq] at h
    rw [rtGo, if_neg h.1, ih _ h.2]
    simp

theorem rtGo_id : ∀ {l : List Char}, goodLt l = true → rtGo none l = l := by
  intro l
  induction l with
  | nil => intro _; rfl
  | cons c t ih =>
    intro h
    rw [goodLt, Bool.and_eq_true] at h
    rw [rtGo]
    by_cases hc : c = '<'
    · rw [if_pos hc]
      subst hc
      have ht : tailOk t = true := by simpa using h.1
      rw [tailOk, Bool.or_eq_true] at ht
      rcases ht with hs | hn
      · rcases t with _ | ⟨d, r⟩
        · simp [startsGt] at hs
        · have hd : d = '>' := by simpa [startsGt] using hs
          subst hd
          rw [show rtGo (some []) ('>' :: r) = '<' :: '>' :: rtGo none r from rfl]
          have h2 := ih h.2
          rw [rtGo, if_neg (by decide : ¬('>' : Char) = '<')] at h2
          rw [(List.cons.inj h2).2]
      · have hn' : hasGt t = false := by simpa using hn
        rw [rtGo_noGt t [] hn']
        simp
    · rw [if_neg hc, ih h.2]

/-- The list does not start with whitespace. -/
def headOkWS : List Char → Bool
  | [] => true
  | c :: _ => !pyWS c

/-- No two adjacent characters are both whitespace. -/
def noAdj : List Char → Bool
  | [] => true
  | [_] => true
  | c :: d :: t => (!pyWS c || !pyWS d) && noAdj (d :: t)

/-- Every whitespace character is a plain space. -/
def wsOnlySpace : List Char → Bool
  | [] => true
  | c :: t => (!pyWS c || c == ' ') && wsOnlySpace t

/-- Every character is whitespace. -/
def wsOnly : List Char → Bool
  | [] => true
  | c :: t => pyWS c && wsOnly t

theorem nwGo_hasGt : ∀ (l : List Char) (f : Bool),
    hasGt l = false → hasGt (nwGo f l) = false := by
  intro l
  induction l with
  | nil => intro f _; cases f <;> rfl
  | cons c t ih =>
    intro f h
    simp only [hasGt, Bool.or_eq_false_iff] at h
    by_cases hw : pyWS c
    · cases f
      · rw [nwGo, if_pos hw, hasGt]
        simp [ih true h.2, show (' ' == '>') = false from rfl]
      · rw [nwGo, if_pos hw]
        exact ih true h.2
    · cases f <;> rw [nwGo, if_neg hw, hasGt] <;> simp [h.1, ih false h.2]

theorem nwGo_goodLt : ∀ (l : List Char) (f : Bool),
    goodLt l = true → goodLt (nwGo f l) = true := by
  intro l
  induction l with
  | nil => intro f _; cases f <;> rfl
  | cons c t ih =>
    intro f h
    rw [goodLt, Bool.and_eq_true] at h
    by_cases hw : pyWS c
    · cases f
      · rw [nwGo, if_pos hw, goodLt, Bool.and_eq_true]
        exact ⟨by simp [show (' ' != '<') = true from rfl], ih true h.2⟩
      · rw [nwGo, if_pos hw]
        exact ih true h.2
    · have hone : (c != '<' || tailOk (nwGo false t)) = true := by
        by_cases hc : c = '<'
        · subst hc
          have ht : tailOk t = true := by simpa using h.1
          rw [tailOk, Bool.or_eq_true] at ht
          rw [Bool.or_eq_true]
          right
          rw [tailOk, Bool.or_eq_true]
          rcases ht with hs | hn
          · left
            rcases t with _ | ⟨d, r⟩
            · simp [startsGt] at hs
            · have hd : d = '>' := by simpa [startsGt] using hs
              subst hd
              rw [nwGo, if_neg (by decide : ¬pyWS '>' = true)]
              rfl
          · right
            have hn2 : hasGt t = false := by simpa using hn
            simp [nwGo_hasGt t false hn2]
        · rw [Bool.or_eq_true]
          exact Or.inl (bne_iff_ne.mpr hc)
      cases f <;> rw [nwGo, if_neg hw, goodLt, Bool.and_eq_true] <;>
        exact ⟨hone, ih false h.2⟩

theorem nwGo_headOk : ∀ (l : List Char), headOkWS (nwGo true l) = true := by
  intro l
  induction l with
  | nil => rfl
  | cons c t ih =>
    by_cases hw : pyWS c
    · rw [nwGo, if_pos hw]; exact ih
    · simp at hw
      rw [nwGo, if_neg (by simp [hw]), headOkWS]
      simp [hw]

theorem nwGo_noAdj : ∀ (l : List Char) (f : Bool), noAdj (nwGo f l) = true := by
  intro l
  induction l with
  | nil => intro f; cases f <;> rfl
  | cons c t ih =>
    intro f
    by_cases hw : pyWS c
    · cases f
      · rw [nwGo, if_pos hw]
        have hh := nwGo_headOk t
        have hn := ih true
        cases hX : nwGo true t with
        | nil => rfl
        | cons d r =>
          rw [hX] at hh hn
          rw [noAdj, Bool.and_eq_true]
          refine ⟨?_, hn⟩
          rw [Bool.or_eq_true]
          right
          simpa [headOkWS] using hh
      · rw [nwGo, if_pos hw]
        exact ih true
    · simp at hw
      have hn := ih false
      cases f <;> rw [nwGo, if_neg (by simp [hw])] <;>
        cases hX : nwGo false t with
        | nil => rfl
        | cons d r =>
          rw [hX] at hn
          rw [noAdj, Bool.and_eq_true]
          exact ⟨by simp [hw], hn⟩

theorem nwGo_space : ∀ (l : List Char) (f : Bool), wsOnlySpace (nwGo f l) = true := by
  intro l
  induction l with
  | nil => intro f; cases f <;> rfl
  | cons c t ih =>
    intro f
    by_cases hw : pyWS c
    · cases f
      · rw [nwGo, if_pos hw, wsOnlySpace, Bool.and_eq_true]
        exact ⟨by simp [show (' ' == ' ') = true from rfl], ih true⟩
      · rw [nwGo, if_pos hw]
        exact ih true
    · simp at hw
      cases f <;> rw [nwGo, if_neg (by simp [hw]), wsOnlySpace, Bool.and_eq_true] <;>
        exact ⟨by simp [hw], ih false⟩

theorem nwGo_flag : ∀ (l : List Char), headOkWS l = true → nwGo true l = nwGo false l := by
  intro l h
  rcases l with _ | ⟨c, t⟩
  · rfl
  · simp [headOkWS] at h
    rw [nwGo, nwGo, if_neg (by simp [h]), if_neg (by simp [h])]

theorem nwGo_id : ∀ (l : List Char),
    wsOnlySpace l = true → noAdj l = true → nwGo false l = l := by
  intro l
  induction l with
  | nil => intro _ _; rfl
  | cons c t ih =>
    intro hs hn
    rw [wsOnlySpace, Bool.and_eq_true] at hs
    have hnt : noAdj t = true := by
      rcases t with _ | ⟨d, r⟩
      · rfl
      · rw [noAdj, Bool.and_eq_true] at hn
        exact hn.2
    by_cases hw : pyWS c
    · have hc : c = ' ' := by
        have hor := hs.1
        rw [Bool.or_eq_true] at hor
        rcases hor with h1 | h2
        · rw [Bool.not_eq_true'] at h1
          rw [h1] at hw
          simp at hw
        · exact eq_of_beq h2
      have hht : headOkWS t = true := by
        rcases t with _ | ⟨d, r⟩
        · rfl
        · rw [noAdj, Bool.and_eq_true] at hn
          have hor := hn.1
          rw [Bool.or_eq_true] at hor
          rcases hor with h1 | h2
          · rw [Bool.not_eq_true'] at h1
            rw [h1] at hw
            simp at hw
          · simpa [headOkWS] using h2
      rw [nwGo, if_pos hw, nwGo_flag t hht, ih hs.2 hnt, hc]
    · rw [nwGo, if_neg hw, ih hs.2 hnt]

theorem headOk_dropWhile (l : List Char) : headOkWS (l.dropWhile pyWS) = true := by
  induction l with
  | nil => rfl
  | cons c t ih =>
    by_cases hw : pyWS c
    · simp [List.dropWhile_cons, hw, ih]
    · simp at hw
      simp [List.dropWhile_cons, hw, headOkWS]

theorem dropWhile_headOk : ∀ {l : List Char},
    headOkWS l = true → l.dropWhile pyWS = l := by
  intro l h
  rcases l with _ | ⟨c, t⟩
  · rfl
  · rw [headOkWS, Bool.not_eq_true'] at h
    simp [List.dropWhile_cons, h]

theorem dropTrail_decomp : ∀ l : List Char,
    ∃ w, l = dropTrailWS l ++ w ∧ wsOnly w = true := by
  intro l
  induction l with
  | nil => exact ⟨[], rfl, rfl⟩
  | cons c t ih =>
    rcases ih with ⟨w, hw, hws⟩
    rw [dropTrailWS]
    cases hX : dropTrailWS t with
    | nil =>
      rw [hX, List.nil_append] at hw
      by_cases hc : pyWS c
      · rw [if_pos hc]
        refine ⟨c :: t, rfl, ?_⟩
        rw [wsOnly, Bool.and_eq_true]
        exact ⟨hc, hw ▸ hws⟩
      · rw [if_neg hc]
        exact ⟨w, by rw [List.cons_append, List.nil_append, ← hw], hws⟩
    | cons d r =>
      rw [hX] at hw
      exact ⟨w, by rw [List.cons_append, ← hw], hws⟩

theorem dropTrail_idem : ∀ l : List Char, dropTrailWS (dropTrailWS l) = dropTrailWS l := by
  intro l
  induction l with
  | nil => rfl
  | cons c t ih =>
    rw [dropTrailWS]
    cases hX : dropTrailWS t with
    | nil =>
      by_cases hc : pyWS c
      · rw [if_pos hc]; rfl
      · rw [if_neg hc]
        simp [dropTrailWS, hc]
    | cons d r =>
      rw [hX] at ih
      rw [dropTrailWS, ih]

theorem dropTrail_headOk : ∀ {l : List Char},
    headOkWS l = true → headOkWS (dropTrailWS l) = true := by
  intro l h
  rcases l with _ | ⟨c, t⟩
  · rfl
  · rw [headOkWS, Bool.not_eq_true'] at h
    rw [dropTrailWS]
    cases hX : dropTrailWS t with
    | nil => rw [if_neg (by simp [h])]; simp [headOkWS, h]
    | cons d r => simp [headOkWS, h]

theorem goodLt_append_right : ∀ (a b : List Char),
    goodLt (a ++ b) = true → goodLt b = true := by
  intro a b
  induction a with
  | nil => exact id
  | cons c t ih =>
    intro h
    rw [List.cons_append, goodLt, Bool.and_eq_true] at h
    exact ih h.2

theorem goodLt_append_left : ∀ (a b : List Char),
    goodLt (a ++ b) = true → hasGt b = false → goodLt a = true := by
  intro a b
  induction a with
  | nil => intro _ _; rfl
  | cons c t ih =>
    intro h hb
    rw [List.cons_append, goodLt, Bool.and_eq_true] at h
    rw [goodLt, Bool.and_eq_true]
    refine ⟨?_, ih h.2 hb⟩
    have hor := h.1
    rw [Bool.or_eq_true] at hor
    rcases hor with h1 | h2
    · rw [Bool.or_eq_true]
      exact Or.inl h1
    · rw [Bool.or_eq_true]
      right
      rw [tailOk, Bool.or_eq_true]
      rcases t with _ | ⟨d, r⟩
      · right; rfl
      · rw [tailOk, Bool.or_eq_true] at h2
        rcases h2 with hs | hn
        · left
          simpa [startsGt] using hs
        · right
          rw [hasGt_append] at hn
          simp only [Bool.not_eq_true', Bool.or_eq_false_iff] at hn
          simp [hn.1]

theorem noAdj_tail : ∀ {c : Char} {l : List Char}, noAdj (c :: l) = true → noAdj l = true := by
  intro c l h
  rcases l with _ | ⟨d, r⟩
  · rfl
  · rw [noAdj, Bool.and_eq_true] at h
    exact h.2

theorem noAdj_append_right : ∀ (a b : List Char),
    noAdj (a ++ b) = true → noAdj b = true := by
  intro a b
  induction a with
  | nil => exact id
  | cons c t ih =>
    intro h
    rw [List.cons_append] at h
    exact ih (noAdj_tail h)

theorem noAdj_append_left : ∀ (a b : List Char),
    noAdj (a ++ b) = true → noAdj a = true := by
  intro a b
  induction a with
  | nil => intro _; rfl
  | cons c t ih =>
    intro h
    rw [List.cons_append] at h
    have ht := ih (noAdj_tail h)
    rcases t with _ | ⟨d, r⟩
    · rfl
    · rw [List.cons_append, noAdj, Bool.and_eq_true] at h
      rw [noAdj, Bool.and_eq_true]
      exact ⟨h.1, ht⟩

theorem space_append_right : ∀ (a b : List Char),
    wsOnlySpace (a ++ b) = true → wsOnlySpace b = true := by
  intro a b
  induction a with
  | nil => exact id
  | cons c t ih =>
    intro h
    rw [List.cons_append, wsOnlySpace, Bool.and_eq_true] at h
    exact ih h.2

theorem space_append_left : ∀ (a b : List Char),
    wsOnlySpace (a ++ b) = true → wsOnlySpace a = true := by
  intro a b
  induction a with
  | nil => intro _; rfl
  | cons c t ih =>
    intro h
    rw [List.cons_append, wsOnlySpace, Bool.and_eq_true] at h
    rw [wsOnlySpace, Bool.and_eq_true]
    exact ⟨h.1, ih h.2⟩

theorem wsOnly_noGt : ∀ {w : List Char}, wsOnly w = true → hasGt w = false := by
  intro w h
  induction w with
  | nil => rfl
  | cons c t ih =>
    rw [wsOnly, Bool.and_eq_true] at h
    rw [hasGt, Bool.or_eq_false_iff]
    refine ⟨?_, ih h.2⟩
    have : c ≠ '>' := by
      intro hc
      rw [hc] at h
      exact absurd h.1 (by decide)
    simpa using this

theorem takeDrop_split (p : Char → Bool) (l : List Char) :
    l.takeWhile p ++ l.dropWhile p = l := by
  induction l with
  | nil => rfl
  | cons c t ih =>
    by_cases hc : p c
    · simp [List.takeWhile_cons, List.dropWhile_cons, hc, ih]
    · simp at hc
      simp [List.takeWhile_cons, List.dropWhile_cons, hc]

theorem sanitize_goodLt (x : List Char) : goodLt (sanitize_input x) = true := by
  have h2 : goodLt (nwGo false (rtGo none x)) = true :=
    nwGo_goodLt _ false (rtGo_goodLt x none trivial)
  have h3 : goodLt ((nwGo false (rtGo none x)).dropWhile pyWS) = true := by
    refine goodLt_append_right ((nwGo false (rtGo none x)).takeWhile pyWS) _ ?_
    rw [takeDrop_split]
    exact h2
  rcases dropTrail_decomp ((nwGo false (rtGo none x)).dropWhile pyWS) with ⟨w, hwEq, hws⟩
  show goodLt (dropTrailWS ((nwGo false (rtGo none x)).dropWhile pyWS)) = true
  refine goodLt_append_left _ w ?_ (wsOnly_noGt hws)
  rw [← hwEq]
  exact h3

theorem sanitize_noAdj (x : List Char) : noAdj (sanitize_input x) = true := by
  have h2 : noAdj (nwGo false (rtGo none x)) = true := nwGo_noAdj _ false
  have h3 : noAdj ((nwGo false (rtGo none x)).dropWhile pyWS) = true := by
    refine noAdj_append_right ((nwGo false (rtGo none x)).takeWhile pyWS) _ ?_
    rw [takeDrop_split]
    exact h2
  rcases dropTrail_decomp ((nwGo false (rtGo none x)).dropWhile pyWS) with ⟨w, hwEq, _⟩
  show noAdj (dropTrailWS ((nwGo false (rtGo none x)).dropWhile pyWS)) = true
  refine noAdj_append_left _ w ?_
  rw [← hwEq]
  exact h3

theorem sanitize_space (x : List Char) : wsOnlySpace (sanitize_input x) = true := by
  have h2 : wsOnlySpace (nwGo false (rtGo none x)) = true := nwGo_space _ false
  have h3 : wsOnlySpace ((nwGo false (rtGo none x)).dropWhile pyWS) = true := by
    refine space_append_right ((nwGo false (rtGo none x)).takeWhile pyWS) _ ?_
    rw [takeDrop_split]
    exact h2
  rcases dropTrail_decomp ((nwGo false (rtGo none x)).dropWhile pyWS) with ⟨w, hwEq, _⟩
  show wsOnlySpace (dropTrailWS ((nwGo false (rtGo none x)).dropWhile pyWS)) = true
  refine space_append_left _ w ?_
  rw [← hwEq]
  exact h3

theorem sanitize_headOk (x : List Char) : headOkWS (sanitize_input x) = true :=
  dropTrail_headOk (headOk_dropWhile _)

theorem sanitize_dropTrail (x : List Char) :
    dropTrailWS (sanitize_input x) = sanitize_input x :=
  dropTrail_idem _

theorem handle_ok_some {content : List Char} (out : List Char)
    (h1 : content ≠ []) (h2 : content.length ≤ MAX_INPUT_LENGTH)
    (h3 : is_study_related (sanitize_input content) = true) :
    handle_message content (.ok (some out)) =
      if out = [] ∨ containsSub (lowerStr out) errWord = true then
        ⟨[FAIL_MSG], true, .outputReject⟩
      else
        ⟨[out], true, .displayed⟩ := by
  rw [handle_routed (.ok (some out)) h1 h2 h3]

theorem handle_cases (content : List Char) (llm : LLMResult) :
    (content = [] ∧ handle_message content llm = ⟨[EMPTY_INPUT_MSG], false, .emptyReject⟩) ∨
    (content ≠ [] ∧ MAX_INPUT_LENGTH < content.length ∧
      handle_message content llm = ⟨[TOO_LONG_MSG], false, .lengthReject⟩) ∨
    (content ≠ [] ∧ content.length ≤ MAX_INPUT_LENGTH ∧
      is_study_related (sanitize_input content) = false ∧
      handle_message content llm = ⟨[REDIRECT_MSG], false, .classifyReject⟩) ∨
    (content ≠ [] ∧ content.length ≤ MAX_INPUT_LENGTH ∧
      is_study_related (sanitize_input content) = true ∧
      (handle_message content llm).routed = true ∧
      (handle_message content llm).sent.length = 1 ∧
      ((handle_message content llm).outcome = .outputReject ∨
        (handle_message content llm).outcome = .displayed ∨
        (handle_message content llm).outcome = .valueErrorCaught ∨
        (handle_message content llm).outcome = .runtimeErrorCaught ∨
        (handle_message content llm).outcome = .exceptionCaught)) := by
  by_cases h1 : content = []
  · exact Or.inl ⟨h1, by rw [h1, handle_empty]⟩
  · by_cases h2 : MAX_INPUT_LENGTH < content.length
    · exact Or.inr (Or.inl ⟨h1, h2, handle_long llm h1 h2⟩)
    · have h2b := Nat.not_lt.mp h2
      cases h3 : is_study_related (sanitize_input content) with
      | false => exact Or.inr (Or.inr (Or.inl ⟨h1, h2b, rfl, handle_classify llm h1 h2b h3⟩))
      | true =>
        refine Or.inr (Or.inr (Or.inr ⟨h1, h2b, rfl, ?_, ?_, ?_⟩))
        · rw [handle_routed llm h1 h2b h3]
          rcases llm with o | m | m | _
          · rcases o with _ | out
            · rfl
            · by_cases h4 : out = [] ∨ containsSub (lowerStr out) errWord = true <;> simp [h4]
          · rfl
          · rfl
          · rfl
        · rw [handle_routed llm h1 h2b h3]
          rcases llm with o | m | m | _
          · rcases o with _ | out
            · rfl
            · by_cases h4 : out = [] ∨ containsSub (lowerStr out) errWord = true <;> simp [h4]
          · rfl
          · rfl
          · rfl
        · rw [handle_routed llm h1 h2b h3]
          rcases llm with o | m | m | _
          · rcases o with _ | out
            · exact Or.inl rfl
            · by_cases h4 : out = [] ∨ containsSub (lowerStr out) errWord = true <;> simp [h4]
          · exact Or.inr (Or.inr (Or.inl rfl))
          · exact Or.inr (Or.inr (Or.inr (Or.inl rfl)))
          · exact Or.inr (Or.inr (Or.inr (Or.inr rfl)))

theorem outcome_empty_iff (content : List Char) (llm : LLMResult) :
    (handle_message content llm).outcome = .emptyReject ↔ content = [] := by
  rcases handle_cases content llm with ⟨h1, he⟩ | ⟨h1, _, he⟩ | ⟨h1, _, _, he⟩ |
    ⟨h1, _, _, _, _, ho⟩
  · subst h1
    simp [he]
  · simp [he, h1]
  · simp [he, h1]
  · simp only [h1, iff_false]
    intro h
    rcases ho with h5 | h5 | h5 | h5 | h5 <;> rw [h5] at h <;> exact Outcome.noConfusion h

theorem outcome_length_iff (content : List Char) (llm : LLMResult) :
    (handle_message content llm).outcome = .lengthReject ↔
      content ≠ [] ∧ MAX_INPUT_LENGTH < content.length := by
  rcases handle_cases content llm with ⟨h1, he⟩ | ⟨h1, h2, he⟩ | ⟨h1, h2, _, he⟩ |
    ⟨h1, h2, _, _, _, ho⟩
  · subst h1
    simp [he]
  · simp [he, h1, h2]
  · simp only [he]
    constructor
    · intro h
      exact Outcome.noConfusion h
    · rintro ⟨_, hlt⟩
      exact absurd hlt (Nat.not_lt.mpr h2)
  · constructor
    · intro h
      rcases ho with h5 | h5 | h5 | h5 | h5 <;> rw [h5] at h <;> exact Outcome.noConfusion h
    · rintro ⟨_, hlt⟩
      exact absurd hlt (Nat.not_lt.mpr h2)

/-- Claim C1: the LLM routing call (`Runner.run`) is invoked only when
`is_study_related` accepts the sanitized text; whenever the classifier
returns false, the fixed redirect message is the single displayed message,
the turn ends, and Routing is never entered. -/
theorem claim1_router_gated (content : List Char) (llm : LLMResult)
    (h : is_study_related (sanitize_input content) = false) :
    (handle_message content llm).routed = false ∧
      (content ≠ [] → content.length ≤ MAX_INPUT_LENGTH →
        handle_message content llm = ⟨[REDIRECT_MSG], false, .classifyReject⟩) := by
  constructor
  · rcases handle_cases content llm with ⟨_, he⟩ | ⟨_, _, he⟩ | ⟨_, _, _, he⟩ |
      ⟨_, _, h3, _, _, _⟩
    · rw [he]
    · rw [he]
    · rw [he]
    · rw [h3] at h
      exact Bool.noConfusion h
  · intro h1 h2
    exact handle_classify llm h1 h2 h

/-- Witness for C1 at the input from the spec scenario that fails
classification. -/
theorem claim1_witness :
    (handle_message ("tell me a joke".toList) (.ok none)).routed = false ∧
      handle_message ("tell me a joke".toList) (.ok none)
        = ⟨[REDIRECT_MSG], false, .classifyReject⟩ := by
  have h := claim1_router_gated ("tell me a joke".toList) (.ok none) (by decide)
  exact ⟨h.1, h.2 (by decide) (by decide)⟩

/-- Claim C2: validation rejects with the empty-input message exactly when the
text is empty and with the length message exactly when it exceeds 1000
characters; both rejections are terminal for the turn. -/
theorem claim2_validation (content : List Char) (llm : LLMResult) :
    ((handle_message content llm).outcome = .emptyReject ↔ content = []) ∧
      ((handle_message content llm).outcome = .lengthReject ↔
        (content ≠ [] ∧ MAX_INPUT_LENGTH < content.length)) ∧
      (content = [] →
        handle_message content llm = ⟨[EMPTY_INPUT_MSG], false, .emptyReject⟩) ∧
      (content ≠ [] → MAX_INPUT_LENGTH < content.length →
        handle_message content llm = ⟨[TOO_LONG_MSG], false, .lengthReject⟩) := by
  refine ⟨outcome_empty_iff content llm, outcome_length_iff content llm, ?_, ?_⟩
  · intro h
    rw [h, handle_empty]
  · intro h1 h2
    exact handle_long llm h1 h2

/-- Witness for C2: length 0 rejected with the empty-input message, length
1001 rejected with the length message, length 1000 not length-rejected. -/
theorem claim2_witness :
    handle_message [] (.ok none) = ⟨[EMPTY_INPUT_MSG], false, .emptyReject⟩ ∧
      handle_message (List.replicate 1001 'a') (.ok none)
        = ⟨[TOO_LONG_MSG], false, .lengthReject⟩ ∧
      (handle_message (List.replicate 1000 'a') (.ok none)).outcome ≠
        Outcome.lengthReject := by
  refine ⟨(claim2_validation [] (.ok none)).2.2.1 rfl,
    (claim2_validation (List.replicate 1001 'a') (.ok none)).2.2.2 (by decide) (by decide), ?_⟩
  intro h
  have h2 := ((claim2_validation (List.replicate 1000 'a') (.ok none)).2.1).mp h
  exact absurd h2.2 (by decide)

/-- Claim C3: `is_study_related` is true iff the lowercased input contains one
of the eight subject keywords or the substrings study or exam, with the three
example inputs from the spec. -/
theorem claim3_classifier (q : List Char) :
    (is_study_related q = true ↔
        ((∃ kw, kw ∈ ALLOWED_SUBJECTS ∧ ∃ a b, lowerStr q = a ++ kw ++ b) ∨
          (∃ a b, lowerStr q = a ++ "study".toList ++ b) ∨
          (∃ a b, lowerStr q = a ++ "exam".toList ++ b))) ∧
      is_study_related ("please explain calculus".toList) = true ∧
      is_study_related ("tell me a joke".toList) = false ∧
      is_study_related ("I have an exam tomorrow".toList) = true := by
  refine ⟨?_, by decide, by decide, by decide⟩
  simp only [is_study_related, Bool.or_eq_true, List.any_eq_true, containsSub_iff]
  rw [or_assoc]

/-- Claim C4: the sanitizer yields empty on empty input, strips the tags of
the spec example, and its output is a fixed point of tag removal, whitespace
collapsing, and trimming (so all tag-like substrings are gone, whitespace is
fully collapsed, and the ends are trimmed). -/
theorem claim4_sanitizer (x : List Char) :
    sanitize_input [] = [] ∧
      sanitize_input ("<b>hi</b>".toList) = "hi".toList ∧
      rtGo none (sanitize_input x) = sanitize_input x ∧
      nwGo false (sanitize_input x) = sanitize_input x ∧
      stripWS (sanitize_input x) = sanitize_input x := by
  refine ⟨rfl, by decide, ?_, ?_, ?_⟩
  · exact rtGo_id (sanitize_goodLt x)
  · exact nwGo_id _ (sanitize_space x) (sanitize_noAdj x)
  · show dropTrailWS ((sanitize_input x).dropWhile pyWS) = sanitize_input x
    rw [dropWhile_headOk (sanitize_headOk x), sanitize_dropTrail x]

/-- Claim C5 counterexample: the output ERROR (uppercase) is non-empty and
does not contain the lowercase literal substring error, yet the handler does
not display it verbatim: the fixed failure message is sent instead, because
the code lowercases the output before the check. -/
theorem claim5_counterexample :
    containsSub ("ERROR".toList) ("error".toList) = false ∧
      "ERROR".toList ≠ ([] : List Char) ∧
      handle_message ("math".toList) (.ok (some ("ERROR".toList)))
        = ⟨[FAIL_MSG], true, .outputReject⟩ ∧
      FAIL_MSG ≠ "ERROR".toList := by
  exact ⟨by decide, by decide, by decide, by decide⟩

/-- Claim C5 (amended): on a turn that reaches Routing, a returned output is
displayed verbatim iff it is non-empty and its lowercased form does not
contain the substring error; otherwise the fixed failure message is sent. -/
theorem claim5_output_filter (content out : List Char)
    (h1 : content ≠ []) (h2 : content.length ≤ MAX_INPUT_LENGTH)
    (h3 : is_study_related (sanitize_input content) = true) :
    (out ≠ [] ∧ containsSub (lowerStr out) errWord = false →
        handle_message content (.ok (some out)) = ⟨[out], true, .displayed⟩) ∧
      (out = [] ∨ containsSub (lowerStr out) errWord = true →
        handle_message content (.ok (some out)) = ⟨[FAIL_MSG], true, .outputReject⟩) := by
  constructor
  · rintro ⟨h4, h5⟩
    rw [handle_ok_some out h1 h2 h3]
    have hno : ¬(out = [] ∨ containsSub (lowerStr out) errWord = true) := by
      rintro (hc | hc)
      · exact h4 hc
      · rw [h5] at hc
        exact Bool.noConfusion hc
    rw [if_neg hno]
  · intro h4
    rw [handle_ok_some out h1 h2 h3, if_pos h4]

/-- Witness for the amended C5: a clean output is displayed verbatim, an empty
output is replaced by the failure message. -/
theorem claim5_witness :
    handle_message ("math".toList) (.ok (some ("ok".toList)))
        = ⟨["ok".toList], true, .displayed⟩ ∧
      handle_message ("math".toList) (.ok (some ([] : List Char)))
        = ⟨[FAIL_MSG], true, .outputReject⟩ := by
  exact ⟨(claim5_output_filter ("math".toList) ("ok".toList)
      (by decide) (by decide) (by decide)).1 ⟨by decide, by decide⟩,
    (claim5_output_filter ("math".toList) [] (by decide) (by decide) (by decide)).2
      (Or.inl rfl)⟩

/-- Claim C6: the sanitizer is idempotent. -/
theorem claim6_sanitize_idem (x : List Char) :
    sanitize_input (sanitize_input x) = sanitize_input x := by
  show stripWS (nwGo false (rtGo none (sanitize_input x))) = sanitize_input x
  rw [rtGo_id (sanitize_goodLt x), nwGo_id _ (sanitize_space x) (sanitize_noAdj x)]
  show dropTrailWS ((sanitize_input x).dropWhile pyWS) = sanitize_input x
  rw [dropWhile_headOk (sanitize_headOk x), sanitize_dropTrail x]

/-- Claim C7 counterexample: when the LLM call raises, the displayed message
is not one fixed generic text: different exception strings and classes
produce different displayed messages. -/
theorem claim7_counterexample :
    (handle_message ("math".toList) (.raiseValueError ("x".toList))).sent ≠
        (handle_message ("math".toList) (.raiseValueError ("y".toList))).sent ∧
      (handle_message ("math".toList) .raiseOtherException).sent ≠
        (handle_message ("math".toList) (.raiseValueError ("x".toList))).sent := by
  exact ⟨by decide, by decide⟩

/-- Claim C7 (amended): every exception raised by the LLM call is caught and
the turn still ends with exactly one displayed message, but the message
depends on the exception class and, for ValueError and RuntimeError, embeds
the exception text; only the catch-all handler shows a fixed text. -/
theorem claim7_exception_handling (content m : List Char)
    (h1 : content ≠ []) (h2 : content.length ≤ MAX_INPUT_LENGTH)
    (h3 : is_study_related (sanitize_input content) = true) :
    handle_message content (.raiseValueError m)
        = ⟨[invalidInputMsg m], true, .valueErrorCaught⟩ ∧
      handle_message content (.raiseRuntimeError m)
        = ⟨[processingErrorMsg m], true, .runtimeErrorCaught⟩ ∧
      handle_message content .raiseOtherException
        = ⟨[UNEXPECTED_MSG], true, .exceptionCaught⟩ := by
  exact ⟨handle_routed _ h1 h2 h3, handle_routed _ h1 h2 h3, handle_routed _ h1 h2 h3⟩

/-- Witness for the amended C7. -/
theorem claim7_witness :
    handle_message ("math".toList) (.raiseValueError ("boom".toList))
      = ⟨[invalidInputMsg ("boom".toList)], true, .valueErrorCaught⟩ := by
  exact (claim7_exception_handling ("math".toList) ("boom".toList)
    (by decide) (by decide) (by decide)).1

/-- Claim C8: the length check runs on the raw text before sanitization: a
non-empty input is length-rejected exactly when its raw length exceeds 1000,
regardless of the length of its sanitized form. -/
theorem claim8_raw_length (content : List Char) (llm : LLMResult) (h1 : content ≠ []) :
    ((handle_message content llm).outcome = .lengthReject ↔
        MAX_INPUT_LENGTH < content.length) ∧
      (MAX_INPUT_LENGTH < content.length →
        (sanitize_input content).length ≤ MAX_INPUT_LENGTH →
        (handle_message content llm).outcome = .lengthReject) := by
  constructor
  · rw [outcome_length_iff]
    constructor
    · rintro ⟨_, h⟩
      exact h
    · intro h
      exact ⟨h1, h⟩
  · intro h2 _
    exact (outcome_length_iff content llm).mpr ⟨h1, h2⟩

/-- Witness for C8: 1001 spaces sanitize to the empty string yet are
length-rejected on the raw length; a short input with markup is not
length-rejected. -/
theorem claim8_witness :
    (handle_message (List.replicate 1001 ' ') (.ok none)).outcome = .lengthReject ∧
      (sanitize_input (List.replicate 1001 ' ')).length ≤ MAX_INPUT_LENGTH ∧
      (handle_message ("<b>math</b>".toList) (.ok none)).outcome ≠
        Outcome.lengthReject := by
  refine ⟨(claim8_raw_length (List.replicate 1001 ' ') (.ok none) (by decide)).2
      (by decide) (by decide), by decide, ?_⟩
  intro h
  have h2 := (claim8_raw_length ("<b>math</b>".toList) (.ok none) (by decide)).1.mp h
  exact absurd h2 (by decide)

/-- Claim C9 counterexample: 1001 spaces are a non-empty raw input whose
sanitized form is the empty string, yet the turn is rejected by the length
check with the length-error message, not by the classifier with the redirect
message, because the length check runs on the raw text before sanitization. -/
theorem claim9_counterexample :
    List.replicate 1001 ' ' ≠ ([] : List Char) ∧
      sanitize_input (List.replicate 1001 ' ') = [] ∧
      handle_message (List.replicate 1001 ' ') (.ok none)
        = ⟨[TOO_LONG_MSG], false, .lengthReject⟩ ∧
      TOO_LONG_MSG ≠ REDIRECT_MSG := by
  exact ⟨by decide, by decide, by decide, by decide⟩

/-- Claim C9 (amended): a non-empty raw input of length at most 1000 whose
sanitized form is empty is rejected by the classifier with the redirect
message, not by the empty-input check, because the empty check runs on the
raw text before sanitization and the classifier rejects the empty string. -/
theorem claim9_sanitized_empty (content : List Char) (llm : LLMResult)
    (h1 : content ≠ []) (h2 : content.length ≤ MAX_INPUT_LENGTH)
    (h3 : sanitize_input content = []) :
    handle_message content llm = ⟨[REDIRECT_MSG], false, .classifyReject⟩ ∧
      is_study_related [] = false := by
  have hf : is_study_related (sanitize_input content) = false := by
    rw [h3]
    decide
  exact ⟨handle_classify llm h1 h2 hf, by decide⟩

/-- Witness for C9 on the markup-only input. -/
theorem claim9_witness :
    handle_message ("<b></b>".toList) (.ok (some ("math".toList)))
      = ⟨[REDIRECT_MSG], false, .classifyReject⟩ := by
  exact (claim9_sanitized_empty ("<b></b>".toList) (.ok (some ("math".toList)))
    (by decide) (by decide) (by decide)).1

/-- Claim C10: every turn sends exactly one outbound message, on every path
through the handler. -/
theorem claim10_single_message (content : List Char) (llm : LLMResult) :
    (handle_message content llm).sent.length = 1 := by
  rcases handle_cases content llm with ⟨_, he⟩ | ⟨_, _, he⟩ | ⟨_, _, _, he⟩ |
    ⟨_, _, _, _, hs, _⟩
  · rw [he]
    rfl
  · rw [he]
    rfl
  · rw [he]
    rfl
  · exact hs
